import Mathlib

/-!
Verification of the namespace-scoped log-level resolver in src/scopedLog.ts.

The core of the repository is a rooted tree of namespace nodes.  Each node
carries an optional exact-match level (nodeLevel) and an optional cascading
level (cascadingLevel).  The two operations are shouldLog (level lookup with
nearest-ancestor cascading resolution) and setLogLevel (tree extension and
level assignment, with a wildcard suffix selecting the cascading slot).

Embedding notes:
- Namespace strings are modelled as lists of characters, and path segments as
  lists of characters, so that the splitting and validation logic of
  namespaceParts can be translated as plain structural recursion.
- The children Map of a node is modelled as an association list; getChild is
  Map.get (first entry with the key) and setChild is Map.set (replace the
  entry in place if the key exists, else append).  A JS Map can never hold two
  entries with the same key, which corresponds to the Nodup key invariant WF
  below.
- The in-place mutation of the nearest visited node in setLogLevel is rendered
  by applyAtNearest, which walks exactly like findNearestNode and rebuilds the
  tree with the stopping node replaced; the remaining segments at the stopping
  point agree with the ones findNearestNode returns (theorem
  applyAtNearest_stopRem together with stopRem_eq_findNearestNode below).
- Thrown exceptions are modelled with Except String; the global tree is
  threaded explicitly, a thrown call leaving it unchanged (in the source,
  every throw happens before the first mutation of the tree).
-/

/-- Modelled from the spec: the LogLevel enum lives in src/types.ts, which is
not present under src/.  The spec gives the numeric ordering
OFF < ERROR < WARN < INFO < LOG < DEBUG, where a lower-or-equal numeric
check-level relative to a configured threshold means the message is emitted,
and the documented default root level is INFO. -/
inductive LogLevel : Type where
  | OFF
  | ERROR
  | WARN
  | INFO
  | LOG
  | DEBUG
deriving DecidableEq

/-- Numeric value of a severity, following the spec ordering. -/
def LogLevel.toNat : LogLevel → Nat
  | .OFF => 0
  | .ERROR => 1
  | .WARN => 2
  | .INFO => 3
  | .LOG => 4
  | .DEBUG => 5

/-- The comparison checkLevel <= level used by shouldLog. -/
def levelLe (a b : LogLevel) : Bool :=
  Nat.ble a.toNat b.toNat

/-- A path segment: one delimiter-separated component of a namespace. -/
abbrev Seg := List Char

/-- WILDCARD_NAMESPACE_TOKEN from the source. -/
def WILDCARD_NAMESPACE_TOKEN : Seg := ['*']

/-- ROOT_NAMESPACE_KEY from the source. -/
def ROOT_NAMESPACE_KEY : Seg := ['$']

/-- DEFAULT_ROOT_LEVEL from the source, LogLevel.INFO. -/
def DEFAULT_ROOT_LEVEL : LogLevel := LogLevel.INFO

/-- A namespace argument: either the RootNamespace symbol or a string. -/
inductive NamespaceInput : Type where
  | root
  | str (s : List Char)
deriving DecidableEq

/-- NamespaceNode from the source: one node of the namespace tree.  The
children Map is modelled as an association list from segment to child. -/
inductive NamespaceNode : Type where
  | mk (namespacePart : Seg) (children : List (Seg × NamespaceNode))
       (nodeLevel : Option LogLevel) (cascadingLevel : Option LogLevel)

/-- Projection: the namespacePart field. -/
def NamespaceNode.namespacePart : NamespaceNode → Seg
  | .mk s _ _ _ => s

/-- Projection: the children field. -/
def NamespaceNode.children : NamespaceNode → List (Seg × NamespaceNode)
  | .mk _ ch _ _ => ch

/-- Projection: the nodeLevel field (the exact-match level). -/
def NamespaceNode.nodeLevel : NamespaceNode → Option LogLevel
  | .mk _ _ nl _ => nl

/-- Projection: the cascadingLevel field. -/
def NamespaceNode.cascadingLevel : NamespaceNode → Option LogLevel
  | .mk _ _ _ cl => cl

/-- Replace the children field of a node. -/
def NamespaceNode.withChildren : NamespaceNode → List (Seg × NamespaceNode) → NamespaceNode
  | .mk s _ nl cl, ch => .mk s ch nl cl

/-- createRootNode from the source. -/
def createRootNode : NamespaceNode :=
  .mk ROOT_NAMESPACE_KEY [] none (some DEFAULT_ROOT_LEVEL)

/-- Map.get of the children map: the entry stored under the given key. -/
def getChild : List (Seg × NamespaceNode) → Seg → Option NamespaceNode
  | [], _ => none
  | (k, v) :: rest, key => if k = key then some v else getChild rest key

/-- Map.set of the children map: replace the entry under the key in place if
it exists, else append a new entry. -/
def setChild : List (Seg × NamespaceNode) → Seg → NamespaceNode → List (Seg × NamespaceNode)
  | [], key, c => [(key, c)]
  | (k, v) :: rest, key, c =>
    if k = key then (key, c) :: rest else (k, v) :: setChild rest key c

/-- Store a child under a key in the children map of a node. -/
def setChildOf (n : NamespaceNode) (key : Seg) (c : NamespaceNode) : NamespaceNode :=
  n.withChildren (setChild n.children key c)

/-- JS String.prototype.split with the single-character separator colon. -/
def splitOnColon : List Char → List Seg
  | [] => [[]]
  | c :: rest =>
    match splitOnColon rest with
    | [] => []
    | s :: ss => if c = ':' then [] :: s :: ss else (c :: s) :: ss

/-- JS namespace.endsWith of the colon character. -/
def endsWithColon (s : List Char) : Bool :=
  match s.getLast? with
  | some c => c = ':'
  | none => false

/-- JS namespace.includes of two consecutive colons. -/
def hasDoubleColon : List Char → Bool
  | ':' :: ':' :: _ => true
  | _ :: rest => hasDoubleColon rest
  | [] => false

/-- namespaceParts from the source: validates and splits a namespace input
into its segments, handling a trailing wildcard when allowed. -/
def namespaceParts (ns : NamespaceInput) (allowWildcard : Bool) :
    Except String (List Seg × Bool) :=
  match ns with
  | .root => .ok ([], false)
  | .str s =>
    if s = [] then .ok ([], false)
    else if s = ROOT_NAMESPACE_KEY then .ok ([], false)
    else if endsWithColon s then
      .error "Namespace cannot end with a colon."
    else if hasDoubleColon s then
      .error "Namespace cannot contain empty segments."
    else
      let parts := splitOnColon s
      if parts = [] then .error "Namespace cannot be empty."
      else if parts.getLast? = some WILDCARD_NAMESPACE_TOKEN then
        if !allowWildcard then
          .error "Namespace cannot end with a wildcard token."
        else if parts.dropLast = [ROOT_NAMESPACE_KEY] then .ok ([], true)
        else .ok (parts.dropLast, true)
      else if parts = [ROOT_NAMESPACE_KEY] then .ok ([], false)
      else .ok (parts, false)

/-- The loop of findNearestNode: walks down from the current node as long as
children match, collecting the visited nodes nearest first. -/
def findNearestNodeAux (cur : NamespaceNode) (visited : List NamespaceNode) :
    List Seg → List NamespaceNode × List Seg
  | [] => (visited, [])
  | p :: rest =>
    match getChild cur.children p with
    | some node => findNearestNodeAux node (node :: visited) rest
    | none => (visited, p :: rest)

/-- findNearestNode from the source: starts at the root with the root already
in the visited list, returns the visited nodes nearest first together with
the segments not consumed. -/
def findNearestNode (root : NamespaceNode) (parts : List Seg) :
    List NamespaceNode × List Seg :=
  findNearestNodeAux root [root] parts

/-- The ancestor scan of shouldLog: the first non-null cascadingLevel in the
visited list, nearest first. -/
def scanCascading : List NamespaceNode → Option LogLevel
  | [] => none
  | n :: rest =>
    match n.cascadingLevel with
    | some level => some level
    | none => scanCascading rest

/-- shouldLog from the source, with the tree passed explicitly. -/
def shouldLog (root : NamespaceNode) (checkLevel : LogLevel) (ns : NamespaceInput) :
    Except String Bool :=
  match namespaceParts ns false with
  | .error e => .error e
  | .ok (parts, _isWildcard) =>
    match findNearestNode root parts with
    | ([], _) => .error "No namespaces found invalid tree."
    | (first :: restNodes, remaining) =>
      let exact : Option LogLevel :=
        if remaining.isEmpty then
          match first.nodeLevel with
          | some level => some level
          | none => first.cascadingLevel
        else none
      match exact with
      | some level => .ok (levelLe checkLevel level)
      | none =>
        match scanCascading (first :: restNodes) with
        | some level => .ok (levelLe checkLevel level)
        | none => .error "Invalid root namespace, no cascading level defined."

/-- Assign the level to the wildcard-selected slot of a node: the cascading
slot when isWildcard, else the exact-match slot. -/
def setSlot (n : NamespaceNode) (isWildcard : Bool) (level : LogLevel) : NamespaceNode :=
  match n with
  | .mk s ch nl cl =>
    if isWildcard then .mk s ch nl (some level) else .mk s ch (some level) cl

/-- The extension loop of setLogLevel: creates one child per remaining
segment, each with both levels null, the last one getting the level; at each
step a pre-existing child under the segment key is an invariant violation. -/
def addRemaining (current : NamespaceNode) (rem : List Seg)
    (isWildcard : Bool) (level : LogLevel) : Except String NamespaceNode :=
  match rem with
  | [] => .ok current
  | part :: rest =>
    if (getChild current.children part).isSome then
      .error "Namespace should not exist in the tree."
    else
      let child : NamespaceNode := .mk part [] none none
      let child := if rest.isEmpty then setSlot child isWildcard level else child
      match addRemaining child rest isWildcard level with
      | .ok child2 => .ok (setChildOf current part child2)
      | .error e => .error e

/-- Functional rendering of the in-place mutation of the nearest node: walk
down exactly like findNearestNode and apply f at the node where the walk
stops, passing the segments not consumed, rebuilding the spine on the way
back up. -/
def applyAtNearest (cur : NamespaceNode) (parts : List Seg)
    (f : NamespaceNode → List Seg → Except String NamespaceNode) :
    Except String NamespaceNode :=
  match parts with
  | [] => f cur []
  | p :: rest =>
    match getChild cur.children p with
    | some c =>
      match applyAtNearest c rest f with
      | .ok c2 => .ok (setChildOf cur p c2)
      | .error e => .error e
    | none => f cur (p :: rest)

/-- The segments left unconsumed at the node where the walk stops; used to
certify that applyAtNearest branches on the same remaining segments as
findNearestNode returns. -/
def stopRem (cur : NamespaceNode) : List Seg → List Seg
  | [] => []
  | p :: rest =>
    match getChild cur.children p with
    | some c => stopRem c rest
    | none => p :: rest

/-- setLogLevel from the source, with the tree passed and returned
explicitly.  When the remaining segments are empty the existing nearest node
gets the level on the slot selected by the wildcard flag; otherwise the
remaining segments are added below it. -/
def setLogLevel (root : NamespaceNode) (ns : NamespaceInput) (level : LogLevel) :
    Except String NamespaceNode :=
  match namespaceParts ns true with
  | .error e => .error e
  | .ok (parts, isWildcard) =>
    if ((findNearestNode root parts).1).isEmpty then
      .error "No namespaces found invalid tree."
    else
      applyAtNearest root parts (fun n rem =>
        if rem.isEmpty then .ok (setSlot n isWildcard level)
        else addRemaining n rem isWildcard level)

/-- reset from the source: discards the tree and recreates a fresh root. -/
def reset (_root : NamespaceNode) : NamespaceNode :=
  createRootNode

/-- One call of the external administrative surface. -/
inductive Op : Type where
  | setOp (ns : NamespaceInput) (level : LogLevel)
  | queryOp (level : LogLevel) (ns : NamespaceInput)
  | resetOp

/-- The state transition of one call: shouldLog is read-only, a thrown
setLogLevel leaves the tree unchanged (every throw in the source happens
before the first mutation), reset reinitializes the root. -/
def applyOp (t : NamespaceNode) : Op → NamespaceNode
  | .setOp ns level =>
    match setLogLevel t ns level with
    | .ok t2 => t2
    | .error _ => t
  | .queryOp _ _ => t
  | .resetOp => reset t

/-- The state after a sequence of calls starting from the given tree. -/
def applyOps (t : NamespaceNode) (ops : List Op) : NamespaceNode :=
  ops.foldl applyOp t

/-- Well-formedness of a tree as a JS Map forces it: within each children
map the segment keys are distinct. -/
inductive WF : NamespaceNode → Prop where
  | mk : ∀ (s : Seg) (ch : List (Seg × NamespaceNode))
      (nl cl : Option LogLevel),
      (ch.map Prod.fst).Nodup →
      (∀ p c, (p, c) ∈ ch → WF c) →
      WF (.mk s ch nl cl)

/-- Every node below the root has a segment free of the colon delimiter. -/
inductive NoColonTree : NamespaceNode → Prop where
  | mk : ∀ (s : Seg) (ch : List (Seg × NamespaceNode))
      (nl cl : Option LogLevel),
      (∀ p c, (p, c) ∈ ch → ':' ∉ c.namespacePart) →
      (∀ p c, (p, c) ∈ ch → NoColonTree c) →
      NoColonTree (.mk s ch nl cl)

@[simp]
theorem NamespaceNode.namespacePart_mk (s : Seg) (ch : List (Seg × NamespaceNode))
    (nl cl : Option LogLevel) : (NamespaceNode.mk s ch nl cl).namespacePart = s := rfl

@[simp]
theorem NamespaceNode.children_mk (s : Seg) (ch : List (Seg × NamespaceNode))
    (nl cl : Option LogLevel) : (NamespaceNode.mk s ch nl cl).children = ch := rfl

@[simp]
theorem NamespaceNode.nodeLevel_mk (s : Seg) (ch : List (Seg × NamespaceNode))
    (nl cl : Option LogLevel) : (NamespaceNode.mk s ch nl cl).nodeLevel = nl := rfl

@[simp]
theorem NamespaceNode.cascadingLevel_mk (s : Seg) (ch : List (Seg × NamespaceNode))
    (nl cl : Option LogLevel) : (NamespaceNode.mk s ch nl cl).cascadingLevel = cl := rfl

@[simp]
theorem setSlot_namespacePart (n : NamespaceNode) (w : Bool) (level : LogLevel) :
    (setSlot n w level).namespacePart = n.namespacePart := by
  cases n with
  | mk s ch nl cl => cases w <;> simp [setSlot]

@[simp]
theorem setSlot_children (n : NamespaceNode) (w : Bool) (level : LogLevel) :
    (setSlot n w level).children = n.children := by
  cases n with
  | mk s ch nl cl => cases w <;> simp [setSlot]

theorem setSlot_cascadingLevel (n : NamespaceNode) (w : Bool) (level : LogLevel) :
    (setSlot n w level).cascadingLevel =
      if w then some level else n.cascadingLevel := by
  cases n with
  | mk s ch nl cl => cases w <;> simp [setSlot]

@[simp]
theorem setChildOf_namespacePart (n : NamespaceNode) (key : Seg) (c : NamespaceNode) :
    (setChildOf n key c).namespacePart = n.namespacePart := by
  cases n with
  | mk s ch nl cl => simp [setChildOf, NamespaceNode.withChildren]

@[simp]
theorem setChildOf_children (n : NamespaceNode) (key : Seg) (c : NamespaceNode) :
    (setChildOf n key c).children = setChild n.children key c := by
  cases n with
  | mk s ch nl cl => simp [setChildOf, NamespaceNode.withChildren]

@[simp]
theorem setChildOf_nodeLevel (n : NamespaceNode) (key : Seg) (c : NamespaceNode) :
    (setChildOf n key c).nodeLevel = n.nodeLevel := by
  cases n with
  | mk s ch nl cl => simp [setChildOf, NamespaceNode.withChildren]

@[simp]
theorem setChildOf_cascadingLevel (n : NamespaceNode) (key : Seg) (c : NamespaceNode) :
    (setChildOf n key c).cascadingLevel = n.cascadingLevel := by
  cases n with
  | mk s ch nl cl => simp [setChildOf, NamespaceNode.withChildren]

@[simp]
theorem getChild_setChild_self (ch : List (Seg × NamespaceNode)) (key : Seg)
    (c : NamespaceNode) : getChild (setChild ch key c) key = some c := by
  induction ch with
  | nil => simp [setChild, getChild]
  | cons hd tl ih =>
    obtain ⟨k, v⟩ := hd
    by_cases hk : k = key
    · simp [setChild, getChild, hk]
    · simp [setChild, getChild, hk, ih]

theorem getChild_mem (ch : List (Seg × NamespaceNode)) (key : Seg) (c : NamespaceNode)
    (h : getChild ch key = some c) : (key, c) ∈ ch := by
  induction ch with
  | nil => simp [getChild] at h
  | cons hd tl ih =>
    obtain ⟨k, v⟩ := hd
    simp only [getChild] at h
    split at h
    · next hk =>
      cases h
      subst hk
      exact List.mem_cons_self _ _
    · next hk =>
      exact List.mem_cons_of_mem _ (ih h)

theorem mem_setChild (ch : List (Seg × NamespaceNode)) (key : Seg) (c : NamespaceNode)
    (x : Seg × NamespaceNode) (h : x ∈ setChild ch key c) : x ∈ ch ∨ x = (key, c) := by
  induction ch with
  | nil =>
    simp [setChild] at h
    exact Or.inr h
  | cons hd tl ih =>
    obtain ⟨k, v⟩ := hd
    by_cases hk : k = key
    · simp only [setChild, hk, if_pos] at h
      rcases List.mem_cons.mp h with h1 | h1
      · exact Or.inr h1
      · exact Or.inl (List.mem_cons_of_mem _ h1)
    · simp only [setChild, hk, if_neg, if_false] at h
      rcases List.mem_cons.mp h with h1 | h1
      · exact Or.inl (h1 ▸ List.mem_cons_self _ _)
      · rcases ih h1 with h2 | h2
        · exact Or.inl (List.mem_cons_of_mem _ h2)
        · exact Or.inr h2

theorem setChild_keys_nodup (ch : List (Seg × NamespaceNode)) (key : Seg)
    (c : NamespaceNode) (h : (ch.map Prod.fst).Nodup) :
    ((setChild ch key c).map Prod.fst).Nodup := by
  induction ch with
  | nil => simp [setChild]
  | cons hd tl ih =>
    obtain ⟨k, v⟩ := hd
    simp only [List.map_cons, List.nodup_cons] at h
    by_cases hk : k = key
    · subst hk
      simp only [setChild, if_pos, List.map_cons, List.nodup_cons]
      exact h
    · simp only [setChild, hk, if_neg, if_false, List.map_cons, List.nodup_cons]
      refine ⟨?_, ih h.2⟩
      intro hmem
      rcases List.mem_map.mp hmem with ⟨x, hx, hfst⟩
      rcases mem_setChild tl key c x hx with h2 | h2
      · exact h.1 (List.mem_map.mpr ⟨x, h2, hfst⟩)
      · exact hk (by rw [h2] at hfst; exact hfst.symm)

theorem countP_setChild (ch : List (Seg × NamespaceNode)) (key : Seg)
    (c : NamespaceNode) (h : (ch.map Prod.fst).Nodup) :
    (setChild ch key c).countP (fun pr => pr.1 = key) = 1 := by
  induction ch with
  | nil => simp [setChild, List.countP_cons]
  | cons hd tl ih =>
    obtain ⟨k, v⟩ := hd
    simp only [List.map_cons, List.nodup_cons] at h
    by_cases hk : k = key
    · simp only [setChild, hk, if_pos, List.countP_cons, decide_eq_true_eq]
      have hz : tl.countP (fun pr => pr.1 = key) = 0 := by
        refine List.countP_eq_zero.mpr ?_
        intro a ha
        simp only [decide_eq_true_eq]
        intro hak
        exact h.1 (List.mem_map.mpr ⟨a, ha, by rw [hak, ← hk]⟩)
      simp [hz]
    · simp [setChild, hk, List.countP_cons, ih h.2]

theorem findNearestNodeAux_append (parts : List Seg) :
    ∀ (cur : NamespaceNode) (visited : List NamespaceNode),
      ∃ pre, (findNearestNodeAux cur visited parts).1 = pre ++ visited := by
  induction parts with
  | nil => intro cur visited; exact ⟨[], rfl⟩
  | cons p rest ih =>
    intro cur visited
    simp only [findNearestNodeAux]
    cases hgc : getChild cur.children p with
    | none => exact ⟨[], rfl⟩
    | some c =>
      obtain ⟨pre, hpre⟩ := ih c (c :: visited)
      exact ⟨pre ++ [c], by simp [hpre]⟩

theorem self_mem_findNearestNode (t : NamespaceNode) (parts : List Seg) :
    t ∈ (findNearestNode t parts).1 := by
  obtain ⟨pre, hpre⟩ := findNearestNodeAux_append parts t [t]
  simp [findNearestNode, hpre]

theorem findNearestNode_fst_ne_nil (t : NamespaceNode) (parts : List Seg) :
    (findNearestNode t parts).1 ≠ [] := by
  intro h
  have := self_mem_findNearestNode t parts
  rw [h] at this
  exact List.not_mem_nil t this

@[simp]
theorem findNearestNode_fst_isEmpty (t : NamespaceNode) (parts : List Seg) :
    ((findNearestNode t parts).1).isEmpty = false := by
  cases h : (findNearestNode t parts).1 with
  | nil => exact absurd h (findNearestNode_fst_ne_nil t parts)
  | cons a l => simp

theorem applyAtNearest_stopRem (parts : List Seg) :
    ∀ (cur : NamespaceNode) (f : NamespaceNode → List Seg → Except String NamespaceNode),
      applyAtNearest cur parts f =
        applyAtNearest cur parts (fun n _ => f n (stopRem cur parts)) := by
  induction parts with
  | nil => intro cur f; rfl
  | cons p rest ih =>
    intro cur f
    cases hgc : getChild cur.children p with
    | none => simp [applyAtNearest, stopRem, hgc]
    | some c =>
      simp only [applyAtNearest, stopRem, hgc]
      rw [ih c f]

theorem stopRem_eq_findNearestNodeAux (parts : List Seg) :
    ∀ (cur : NamespaceNode) (visited : List NamespaceNode),
      stopRem cur parts = (findNearestNodeAux cur visited parts).2 := by
  induction parts with
  | nil => intro cur visited; rfl
  | cons p rest ih =>
    intro cur visited
    simp only [stopRem, findNearestNodeAux]
    cases hgc : getChild cur.children p with
    | none => rfl
    | some c => exact ih c (c :: visited)

theorem stopRem_eq_findNearestNode (t : NamespaceNode) (parts : List Seg) :
    stopRem t parts = (findNearestNode t parts).2 :=
  stopRem_eq_findNearestNodeAux parts t [t]

theorem scanCascading_isSome_of_mem (l : List NamespaceNode) (n : NamespaceNode)
    (hmem : n ∈ l) (hcl : n.cascadingLevel.isSome) :
    (scanCascading l).isSome := by
  induction l with
  | nil => exact absurd hmem (List.not_mem_nil n)
  | cons m rest ih =>
    simp only [scanCascading]
    cases hm : m.cascadingLevel with
    | some level => simp
    | none =>
      rcases List.mem_cons.mp hmem with h1 | h1
      · rw [h1, hm] at hcl
        simp at hcl
      · exact ih h1

theorem addRemaining_children_nil_ok (rest : List Seg) :
    ∀ (cur : NamespaceNode) (wc : Bool) (lvl : LogLevel), cur.children = [] →
      ∃ out, addRemaining cur rest wc lvl = .ok out := by
  induction rest with
  | nil => intro cur wc lvl _; exact ⟨cur, rfl⟩
  | cons p rest2 ih =>
    intro cur wc lvl h
    cases hre : rest2.isEmpty with
    | true =>
      obtain ⟨out2, hout2⟩ := ih (setSlot (.mk p [] none none) wc lvl) wc lvl (by simp)
      exact ⟨setChildOf cur p out2, by simp [addRemaining, h, getChild, hre, hout2]⟩
    | false =>
      obtain ⟨out2, hout2⟩ := ih (.mk p [] none none) wc lvl (by simp)
      exact ⟨setChildOf cur p out2, by simp [addRemaining, h, getChild, hre, hout2]⟩

theorem addRemaining_ok (cur : NamespaceNode) (p : Seg) (rest : List Seg) (wc : Bool)
    (lvl : LogLevel) (h : getChild cur.children p = none) :
    ∃ out, addRemaining cur (p :: rest) wc lvl = .ok out := by
  cases hre : rest.isEmpty with
  | true =>
    obtain ⟨out2, hout2⟩ :=
      addRemaining_children_nil_ok rest (setSlot (.mk p [] none none) wc lvl) wc lvl (by simp)
    exact ⟨setChildOf cur p out2, by simp [addRemaining, h, hre, hout2]⟩
  | false =>
    obtain ⟨out2, hout2⟩ :=
      addRemaining_children_nil_ok rest (.mk p [] none none) wc lvl (by simp)
    exact ⟨setChildOf cur p out2, by simp [addRemaining, h, hre, hout2]⟩

theorem applyAtNearest_ok (parts : List Seg) :
    ∀ (cur : NamespaceNode) (f : NamespaceNode → List Seg → Except String NamespaceNode),
      (∀ n, ∃ out, f n [] = .ok out) →
      (∀ n p rest, getChild n.children p = none → ∃ out, f n (p :: rest) = .ok out) →
      ∃ out, applyAtNearest cur parts f = .ok out := by
  induction parts with
  | nil => intro cur f h1 _; exact h1 cur
  | cons p rest ih =>
    intro cur f h1 h2
    cases hgc : getChild cur.children p with
    | none =>
      obtain ⟨out, hout⟩ := h2 cur p rest hgc
      exact ⟨out, by simp [applyAtNearest, hgc, hout]⟩
    | some c =>
      obtain ⟨out, hout⟩ := ih c f h1 h2
      exact ⟨setChildOf cur p out, by simp [applyAtNearest, hgc, hout]⟩

theorem setLogLevel_ok (t : NamespaceNode) (ns : NamespaceInput) (lvl : LogLevel)
    (parts : List Seg) (w : Bool) (hp : namespaceParts ns true = .ok (parts, w)) :
    ∃ t2, setLogLevel t ns lvl = .ok t2 := by
  obtain ⟨out, hout⟩ :=
    applyAtNearest_ok parts t
      (fun n rem => if rem.isEmpty then .ok (setSlot n w lvl) else addRemaining n rem w lvl)
      (fun n => ⟨setSlot n w lvl, rfl⟩)
      (fun n p rest hgc => by
        obtain ⟨out, hout⟩ := addRemaining_ok n p rest w lvl hgc
        exact ⟨out, by simpa using hout⟩)
  refine ⟨out, ?_⟩
  simp only [setLogLevel, hp, findNearestNode_fst_isEmpty, Bool.false_eq_true, if_false]
  exact hout

theorem shouldLog_ok (t : NamespaceNode) (lvl : LogLevel) (ns : NamespaceInput)
    (parts : List Seg) (w : Bool) (hroot : t.cascadingLevel.isSome)
    (hp : namespaceParts ns false = .ok (parts, w)) :
    ∃ b, shouldLog t lvl ns = .ok b := by
  rcases hfind : findNearestNode t parts with ⟨nodes, remaining⟩
  cases nodes with
  | nil =>
    have hne := findNearestNode_fst_ne_nil t parts
    rw [hfind] at hne
    exact absurd rfl hne
  | cons first restN =>
    have hmem : t ∈ first :: restN := by
      have hself := self_mem_findNearestNode t parts
      rw [hfind] at hself
      exact hself
    have hscan := scanCascading_isSome_of_mem _ t hmem hroot
    obtain ⟨l, hl⟩ := Option.isSome_iff_exists.mp hscan
    simp only [shouldLog, hp, hfind]
    cases hrem : remaining.isEmpty with
    | false =>
      simp only [hrem, Bool.false_eq_true, if_false, hl]
      exact ⟨levelLe lvl l, rfl⟩
    | true =>
      simp only [hrem, if_true]
      cases hnl : first.nodeLevel with
      | some level => exact ⟨levelLe lvl level, by simp⟩
      | none =>
        cases hcl : first.cascadingLevel with
        | some level => exact ⟨levelLe lvl level, by simp [hcl]⟩
        | none => exact ⟨levelLe lvl l, by simp [hcl, hl]⟩

theorem addRemaining_cascadingLevel (cur : NamespaceNode) (rem : List Seg) (wc : Bool)
    (lvl : LogLevel) (out : NamespaceNode) (h : addRemaining cur rem wc lvl = .ok out) :
    out.cascadingLevel = cur.cascadingLevel := by
  cases rem with
  | nil =>
    simp only [addRemaining] at h
    cases h
    rfl
  | cons p rest =>
    simp only [addRemaining] at h
    cases hgc : (getChild cur.children p).isSome with
    | true => simp [hgc] at h
    | false =>
      simp only [hgc, Bool.false_eq_true, if_false] at h
      cases hin : addRemaining
          (if rest.isEmpty then setSlot (.mk p [] none none) wc lvl
           else .mk p [] none none) rest wc lvl with
      | error e =>
        simp only [hin] at h
        exact Except.noConfusion h
      | ok child2 =>
        simp only [hin] at h
        cases h
        simp

theorem applyAtNearest_cascadingLevel (parts : List Seg) (t out : NamespaceNode)
    (f : NamespaceNode → List Seg → Except String NamespaceNode) (lvl : LogLevel)
    (hf : ∀ n rem o, f n rem = .ok o →
      o.cascadingLevel = n.cascadingLevel ∨ o.cascadingLevel = some lvl)
    (h : applyAtNearest t parts f = .ok out) :
    out.cascadingLevel = t.cascadingLevel ∨ out.cascadingLevel = some lvl := by
  cases parts with
  | nil => exact hf t [] out h
  | cons p rest =>
    simp only [applyAtNearest] at h
    cases hgc : getChild t.children p with
    | none =>
      rw [hgc] at h
      exact hf t (p :: rest) out h
    | some c =>
      rw [hgc] at h
      cases hin : applyAtNearest c rest f with
      | error e => simp [hin] at h
      | ok c2 =>
        simp only [hin] at h
        cases h
        exact Or.inl (by simp)

theorem setLogLevel_cascadingLevel (t : NamespaceNode) (ns : NamespaceInput)
    (lvl : LogLevel) (t2 : NamespaceNode) (h : setLogLevel t ns lvl = .ok t2) :
    t2.cascadingLevel = t.cascadingLevel ∨ t2.cascadingLevel = some lvl := by
  cases hp : namespaceParts ns true with
  | error e => simp [setLogLevel, hp] at h
  | ok pw =>
    obtain ⟨parts, w⟩ := pw
    simp only [setLogLevel, hp, findNearestNode_fst_isEmpty, Bool.false_eq_true,
      if_false] at h
    refine applyAtNearest_cascadingLevel parts t t2 _ lvl ?_ h
    intro n rem o hfo
    cases rem with
    | nil =>
      simp only [List.isEmpty_nil, if_true] at hfo
      cases hfo
      rw [setSlot_cascadingLevel]
      cases w
      · exact Or.inl (by simp)
      · exact Or.inr (by simp)
    | cons q qrest =>
      simp only [List.isEmpty_cons, Bool.false_eq_true, if_false] at hfo
      exact Or.inl (addRemaining_cascadingLevel n (q :: qrest) w lvl o hfo)

theorem applyOp_cascadingLevel_isSome (t : NamespaceNode) (op : Op)
    (h : t.cascadingLevel.isSome) : (applyOp t op).cascadingLevel.isSome := by
  cases op with
  | resetOp => simp [applyOp, reset, createRootNode]
  | queryOp lvl ns => exact h
  | setOp ns lvl =>
    simp only [applyOp]
    cases hs : setLogLevel t ns lvl with
    | error e => exact h
    | ok t2 =>
      rcases setLogLevel_cascadingLevel t ns lvl t2 hs with h2 | h2
      · rw [h2]; exact h
      · simp [h2]

theorem applyOps_cascadingLevel_isSome (ops : List Op) :
    ∀ t : NamespaceNode, t.cascadingLevel.isSome →
      (applyOps t ops).cascadingLevel.isSome := by
  induction ops with
  | nil => intro t h; exact h
  | cons op rest ih =>
    intro t h
    exact ih (applyOp t op) (applyOp_cascadingLevel_isSome t op h)

theorem reachable_cascadingLevel_isSome (ops : List Op) :
    (applyOps createRootNode ops).cascadingLevel.isSome :=
  applyOps_cascadingLevel_isSome ops createRootNode (by simp [createRootNode])

theorem mem_splitOnColon_no_colon (s : List Char) :
    ∀ p ∈ splitOnColon s, ':' ∉ p := by
  induction s with
  | nil =>
    intro p hp
    simp only [splitOnColon, List.mem_singleton] at hp
    simp [hp]
  | cons c rest ih =>
    intro p hp
    simp only [splitOnColon] at hp
    cases hs : splitOnColon rest with
    | nil => simp [hs] at hp
    | cons s0 ss =>
      simp only [hs] at hp
      split at hp
      · next hc =>
        rcases List.mem_cons.mp hp with h1 | h1
        · simp [h1]
        · exact ih p (by rw [hs]; exact h1)
      · next hc =>
        rcases List.mem_cons.mp hp with h1 | h1
        · subst h1
          intro hmem
          rcases List.mem_cons.mp hmem with h2 | h2
          · exact hc h2.symm
          · exact ih s0 (by rw [hs]; exact List.mem_cons_self s0 ss) h2
        · exact ih p (by rw [hs]; exact List.mem_cons_of_mem s0 h1)

theorem namespaceParts_no_colon (ns : NamespaceInput) (aw : Bool) (parts : List Seg)
    (w : Bool) (h : namespaceParts ns aw = .ok (parts, w)) :
    ∀ p ∈ parts, ':' ∉ p := by
  cases ns with
  | root =>
    simp only [namespaceParts] at h
    cases h
    simp
  | str s =>
    simp only [namespaceParts] at h
    split_ifs at h with h1 h2 h3 h4 h5 h6 h7 h8
    all_goals (try cases h)
    all_goals try simp
    · intro p hp
      exact mem_splitOnColon_no_colon s p (List.dropLast_subset _ hp)
    · intro p hp
      exact mem_splitOnColon_no_colon s p hp

theorem noColonTree_children_mem (n : NamespaceNode) (hn : NoColonTree n)
    (p : Seg) (c : NamespaceNode) (h : (p, c) ∈ n.children) :
    ':' ∉ c.namespacePart ∧ NoColonTree c := by
  cases hn with
  | mk s ch nl cl h1 h2 => exact ⟨h1 p c h, h2 p c h⟩

theorem noColonTree_setSlot (n : NamespaceNode) (w : Bool) (lvl : LogLevel)
    (h : NoColonTree n) : NoColonTree (setSlot n w lvl) := by
  cases n with
  | mk s ch nl cl =>
    cases h with
    | mk _ _ _ _ h1 h2 =>
      cases w
      · exact NoColonTree.mk s ch (some lvl) cl h1 h2
      · exact NoColonTree.mk s ch nl (some lvl) h1 h2

theorem noColonTree_setChildOf (n c : NamespaceNode) (key : Seg)
    (hn : NoColonTree n) (hc : NoColonTree c) (hcs : ':' ∉ c.namespacePart) :
    NoColonTree (setChildOf n key c) := by
  cases n with
  | mk s ch nl cl =>
    cases hn with
    | mk _ _ _ _ h1 h2 =>
      refine NoColonTree.mk s (setChild ch key c) nl cl ?_ ?_
      · intro p d hmem
        rcases mem_setChild ch key c (p, d) hmem with h3 | h3
        · exact h1 p d h3
        · injection h3 with h3a h3b
          subst h3b
          exact hcs
      · intro p d hmem
        rcases mem_setChild ch key c (p, d) hmem with h3 | h3
        · exact h2 p d h3
        · injection h3 with h3a h3b
          subst h3b
          exact hc

theorem noColonTree_fresh (p : Seg) : NoColonTree (.mk p [] none none) :=
  NoColonTree.mk p [] none none (by simp) (by simp)

theorem addRemaining_noColon (rem : List Seg) :
    ∀ (cur out : NamespaceNode) (wc : Bool) (lvl : LogLevel),
      (∀ p ∈ rem, ':' ∉ p) → NoColonTree cur →
      addRemaining cur rem wc lvl = .ok out →
      NoColonTree out ∧ out.namespacePart = cur.namespacePart := by
  induction rem with
  | nil =>
    intro cur out wc lvl _ hcur h
    simp only [addRemaining] at h
    cases h
    exact ⟨hcur, rfl⟩
  | cons p rest ih =>
    intro cur out wc lvl hrem hcur h
    simp only [addRemaining] at h
    cases hgc : (getChild cur.children p).isSome with
    | true =>
      rw [hgc] at h
      simp only [if_pos] at h
      exact Except.noConfusion h
    | false =>
      rw [hgc] at h
      simp only [Bool.false_eq_true, if_false] at h
      cases hin : addRemaining
          (if rest.isEmpty then setSlot (.mk p [] none none) wc lvl
           else .mk p [] none none) rest wc lvl with
      | error e =>
        simp only [hin] at h
        exact Except.noConfusion h
      | ok child2 =>
        simp only [hin] at h
        cases h
        have hchild : NoColonTree
            (if rest.isEmpty then setSlot (.mk p [] none none) wc lvl
             else .mk p [] none none) := by
          cases rest.isEmpty
          · exact noColonTree_fresh p
          · exact noColonTree_setSlot _ wc lvl (noColonTree_fresh p)
        have hseg : (if rest.isEmpty then setSlot (.mk p [] none none) wc lvl
             else .mk p [] none none).namespacePart = p := by
          cases rest.isEmpty <;> simp
        obtain ⟨h2a, h2b⟩ :=
          ih _ child2 wc lvl (fun q hq => hrem q (List.mem_cons_of_mem p hq)) hchild hin
        refine ⟨noColonTree_setChildOf cur child2 p hcur h2a ?_, by simp⟩
        rw [h2b, hseg]
        exact hrem p (List.mem_cons_self p rest)

theorem applyAtNearest_noColon (parts : List Seg) :
    ∀ (cur out : NamespaceNode)
      (f : NamespaceNode → List Seg → Except String NamespaceNode),
      (∀ p ∈ parts, ':' ∉ p) → NoColonTree cur →
      (∀ n rem o, NoColonTree n → (∀ p ∈ rem, ':' ∉ p) → f n rem = .ok o →
        NoColonTree o ∧ o.namespacePart = n.namespacePart) →
      applyAtNearest cur parts f = .ok out →
      NoColonTree out ∧ out.namespacePart = cur.namespacePart := by
  induction parts with
  | nil =>
    intro cur out f _ hcur hf h
    exact hf cur [] out hcur (by simp) h
  | cons p rest ih =>
    intro cur out f hparts hcur hf h
    simp only [applyAtNearest] at h
    cases hgc : getChild cur.children p with
    | none =>
      simp only [hgc] at h
      exact hf cur (p :: rest) out hcur hparts h
    | some c =>
      simp only [hgc] at h
      cases hin : applyAtNearest c rest f with
      | error e =>
        simp only [hin] at h
        exact Except.noConfusion h
      | ok c2 =>
        simp only [hin] at h
        cases h
        have hcmem := getChild_mem cur.children p c hgc
        obtain ⟨hcseg, hctree⟩ := noColonTree_children_mem cur hcur p c hcmem
        obtain ⟨h2a, h2b⟩ :=
          ih c c2 f (fun q hq => hparts q (List.mem_cons_of_mem p hq)) hctree hf hin
        exact ⟨noColonTree_setChildOf cur c2 p hcur h2a (by rw [h2b]; exact hcseg),
          by simp⟩

theorem setLogLevel_noColon (t t2 : NamespaceNode) (ns : NamespaceInput)
    (lvl : LogLevel) (ht : NoColonTree t) (h : setLogLevel t ns lvl = .ok t2) :
    NoColonTree t2 := by
  cases hp : namespaceParts ns true with
  | error e =>
    simp only [setLogLevel, hp] at h
    exact Except.noConfusion h
  | ok pw =>
    obtain ⟨parts, w⟩ := pw
    simp only [setLogLevel, hp, findNearestNode_fst_isEmpty, Bool.false_eq_true,
      if_false] at h
    have hparts := namespaceParts_no_colon ns true parts w hp
    refine (applyAtNearest_noColon parts t t2 _ hparts ht ?_ h).1
    intro n rem o hn hrem hfo
    cases rem with
    | nil =>
      simp only [List.isEmpty_nil, if_true] at hfo
      cases hfo
      exact ⟨noColonTree_setSlot n w lvl hn, by simp⟩
    | cons q qrest =>
      simp only [List.isEmpty_cons, Bool.false_eq_true, if_false] at hfo
      exact addRemaining_noColon (q :: qrest) n o w lvl hrem hn hfo

theorem applyOp_noColon (t : NamespaceNode) (op : Op) (h : NoColonTree t) :
    NoColonTree (applyOp t op) := by
  cases op with
  | resetOp =>
    exact NoColonTree.mk ROOT_NAMESPACE_KEY [] none (some DEFAULT_ROOT_LEVEL)
      (by simp) (by simp)
  | queryOp lvl ns => exact h
  | setOp ns lvl =>
    simp only [applyOp]
    cases hs : setLogLevel t ns lvl with
    | error e => exact h
    | ok t2 => exact setLogLevel_noColon t t2 ns lvl h hs

theorem applyOps_noColon (ops : List Op) :
    ∀ t : NamespaceNode, NoColonTree t → NoColonTree (applyOps t ops) := by
  induction ops with
  | nil => intro t h; exact h
  | cons op rest ih =>
    intro t h
    exact ih (applyOp t op) (applyOp_noColon t op h)

theorem wf_children_nodup (n : NamespaceNode) (h : WF n) :
    (n.children.map Prod.fst).Nodup := by
  cases h with
  | mk s ch nl cl h1 h2 => exact h1

theorem wf_children_mem (n : NamespaceNode) (h : WF n) (p : Seg) (c : NamespaceNode)
    (hmem : (p, c) ∈ n.children) : WF c := by
  cases h with
  | mk s ch nl cl h1 h2 => exact h2 p c hmem

/-- C1: exact levels do not inherit.  Starting from a fresh tree, after
setLogLevel on namespace a:b at DEBUG (no wildcard) and no other
configuration, shouldLog DEBUG a:b is true, but shouldLog DEBUG a:b:c
resolves via the nearest ancestor cascading level (the root default INFO)
and is false. -/
theorem claim_C1_exact_levels_do_not_inherit :
    ∃ t1, setLogLevel createRootNode (.str ['a', ':', 'b']) LogLevel.DEBUG = .ok t1 ∧
      shouldLog t1 LogLevel.DEBUG (.str ['a', ':', 'b']) = .ok true ∧
      shouldLog t1 LogLevel.DEBUG (.str ['a', ':', 'b', ':', 'c']) = .ok false :=
  ⟨_, rfl, rfl, rfl⟩

/-- C2: cascading levels inherit arbitrarily deep.  Starting from a fresh
tree, setLogLevel on a:* at DEBUG sets the cascading slot on node a, and
both shouldLog DEBUG a and shouldLog DEBUG a:b:c are true. -/
theorem claim_C2_wildcard_inheritance :
    ∃ t1, setLogLevel createRootNode (.str ['a', ':', '*']) LogLevel.DEBUG = .ok t1 ∧
      (∃ ca, getChild t1.children ['a'] = some ca ∧
        ca.cascadingLevel = some LogLevel.DEBUG) ∧
      shouldLog t1 LogLevel.DEBUG (.str ['a']) = .ok true ∧
      shouldLog t1 LogLevel.DEBUG (.str ['a', ':', 'b', ':', 'c']) = .ok true :=
  ⟨_, rfl, ⟨_, rfl, rfl⟩, rfl, rfl⟩

/-- C3: override precedence.  Starting from a fresh tree, after setLogLevel
a:* at ERROR followed by the exact setLogLevel a:b at DEBUG, shouldLog DEBUG
a:b is true while shouldLog DEBUG a:c (a sibling with no override) is false,
because a:c inherits the ERROR cascading level from node a. -/
theorem claim_C3_override_precedence :
    ∃ t1 t2,
      setLogLevel createRootNode (.str ['a', ':', '*']) LogLevel.ERROR = .ok t1 ∧
      setLogLevel t1 (.str ['a', ':', 'b']) LogLevel.DEBUG = .ok t2 ∧
      shouldLog t2 LogLevel.DEBUG (.str ['a', ':', 'b']) = .ok true ∧
      shouldLog t2 LogLevel.DEBUG (.str ['a', ':', 'c']) = .ok false :=
  ⟨_, _, rfl, rfl, rfl, rfl⟩

/-- C4: root cascading-level invariant.  The root is created with the
default level in its cascading slot, reset restores it, and in every state
reachable from initialization by any sequence of setLogLevel, shouldLog and
reset calls the root cascadingLevel is non-null. -/
theorem claim_C4_root_cascading_invariant :
    createRootNode.cascadingLevel = some DEFAULT_ROOT_LEVEL ∧
    (reset createRootNode).cascadingLevel = some DEFAULT_ROOT_LEVEL ∧
    ∀ ops : List Op, (applyOps createRootNode ops).cascadingLevel ≠ none := by
  refine ⟨rfl, rfl, ?_⟩
  intro ops hnone
  have h := reachable_cascadingLevel_isSome ops
  rw [hnone] at h
  simp at h

/-- C5: the three fatal invariant-violation branches are unreachable.  In
every reachable state, findNearestNode always returns a non-empty visited
list, and shouldLog and setLogLevel return ok (never one of the internal
invariant-violation errors) whenever the namespace passes parse
validation. -/
theorem claim_C5_invariant_branches_unreachable (ops : List Op) :
    (∀ parts : List Seg,
      (findNearestNode (applyOps createRootNode ops) parts).1 ≠ []) ∧
    (∀ (level : LogLevel) (ns : NamespaceInput) (parts : List Seg) (w : Bool),
      namespaceParts ns false = .ok (parts, w) →
      ∃ b, shouldLog (applyOps createRootNode ops) level ns = .ok b) ∧
    (∀ (ns : NamespaceInput) (level : LogLevel) (parts : List Seg) (w : Bool),
      namespaceParts ns true = .ok (parts, w) →
      ∃ t2, setLogLevel (applyOps createRootNode ops) ns level = .ok t2) := by
  refine ⟨fun parts => findNearestNode_fst_ne_nil _ parts, ?_, ?_⟩
  · intro level ns parts w hp
    exact shouldLog_ok _ level ns parts w (reachable_cascadingLevel_isSome ops) hp
  · intro ns level parts w hp
    exact setLogLevel_ok _ ns level parts w hp

theorem claim_C5_witness :
    (findNearestNode (applyOps createRootNode []) [['a']]).1 ≠ [] ∧
    (∃ b, shouldLog (applyOps createRootNode []) LogLevel.DEBUG (.str ['a']) = .ok b) ∧
    (∃ t2, setLogLevel (applyOps createRootNode [])
      (.str ['a']) LogLevel.DEBUG = .ok t2) :=
  ⟨(claim_C5_invariant_branches_unreachable []).1 [['a']],
   (claim_C5_invariant_branches_unreachable []).2.1 LogLevel.DEBUG
     (.str ['a']) [['a']] false rfl,
   (claim_C5_invariant_branches_unreachable []).2.2 (.str ['a'])
     LogLevel.DEBUG [['a']] false rfl⟩

/-- C6: validation errors are raised and are atomic.  A trailing delimiter,
an empty segment, and a wildcard in a lookup each produce a validation
error, for every starting tree, and the tree after the failed call is
exactly the tree before it. -/
theorem claim_C6_validation_errors_atomic (t : NamespaceNode) (level : LogLevel) :
    setLogLevel t (.str ['a', ':']) level =
      .error "Namespace cannot end with a colon." ∧
    setLogLevel t (.str ['a', ':', ':', 'b']) level =
      .error "Namespace cannot contain empty segments." ∧
    shouldLog t level (.str ['a', ':', '*']) =
      .error "Namespace cannot end with a wildcard token." ∧
    applyOp t (.setOp (.str ['a', ':']) level) = t ∧
    applyOp t (.setOp (.str ['a', ':', ':', 'b']) level) = t ∧
    applyOp t (.queryOp level (.str ['a', ':', '*'])) = t :=
  ⟨rfl, rfl, rfl, rfl, rfl, rfl⟩

/-- C7 counterexample: the claim that no reachable node has a segment equal
to the wildcard token is false.  The namespace *:a passes parse validation
(only a trailing wildcard is special), so one setLogLevel call reaches a
state with a child of the root whose segment is the wildcard token. -/
theorem claim_C7_counterexample :
    ∃ c, getChild (applyOps createRootNode
        [Op.setOp (.str ['*', ':', 'a']) LogLevel.DEBUG]).children
        WILDCARD_NAMESPACE_TOKEN = some c ∧
      c.namespacePart = WILDCARD_NAMESPACE_TOKEN :=
  ⟨_, rfl, rfl⟩

/-- C7 amended: in every state reachable from initialization by any
sequence of setLogLevel, shouldLog and reset calls, no non-root node has a
segment containing the delimiter colon; segments equal to the wildcard
token, however, are reachable (see the counterexample), because the parser
treats the wildcard token specially only as the final segment. -/
theorem claim_C7_amended_segment_purity (ops : List Op) :
    NoColonTree (applyOps createRootNode ops) :=
  applyOps_noColon ops createRootNode
    (NoColonTree.mk ROOT_NAMESPACE_KEY [] none (some DEFAULT_ROOT_LEVEL)
      (by simp) (by simp))

/-- C9: reset restores defaults.  After any sequence of calls, a reset
makes shouldLog agree with a freshly initialized tree on every severity and
every namespace input. -/
theorem claim_C9_reset_restores_defaults (ops : List Op) (checkLevel : LogLevel)
    (ns : NamespaceInput) :
    shouldLog (applyOp (applyOps createRootNode ops) Op.resetOp) checkLevel ns =
      shouldLog createRootNode checkLevel ns := rfl

/-- C10: a namespace beginning with the delimiter is not rejected.  The
input :a parses to the segments [empty, a] (validation checks only a
trailing delimiter and two consecutive delimiters), setLogLevel on :a
succeeds and creates a node whose segment is the empty string, and
shouldLog on :a resolves through that node rather than raising a
validation error. -/
theorem claim_C10_leading_delimiter_accepted (level : LogLevel) :
    namespaceParts (.str [':', 'a']) true = .ok ([[], ['a']], false) ∧
    namespaceParts (.str [':', 'a']) false = .ok ([[], ['a']], false) ∧
    ∃ t1, setLogLevel createRootNode (.str [':', 'a']) level = .ok t1 ∧
      (∃ c, getChild t1.children [] = some c ∧ c.namespacePart = []) ∧
      shouldLog t1 level (.str [':', 'a']) = .ok true := by
  refine ⟨rfl, rfl, ?_⟩
  cases level <;> exact ⟨_, rfl, ⟨_, rfl, rfl⟩, rfl⟩

/-- C8: repeated mutation is idempotent on structure.  From any starting
tree (well-formed in the sense that children maps have distinct keys, which
a JS Map forces), calling setLogLevel on a:b at WARN twice in a row leaves
exactly one entry keyed a in the root children and exactly one entry keyed
b below it, with the level of the second call as the exact level of that
node; the second call updates the node in place and raises no
duplicate-key failure. -/
theorem claim_C8_repeated_set_idempotent (t : NamespaceNode) (hwf : WF t) :
    ∃ t1 t2,
      setLogLevel t (.str ['a', ':', 'b']) LogLevel.WARN = .ok t1 ∧
      setLogLevel t1 (.str ['a', ':', 'b']) LogLevel.WARN = .ok t2 ∧
      ∃ na nb,
        getChild t2.children ['a'] = some na ∧
        t2.children.countP (fun pr => pr.1 = ['a']) = 1 ∧
        getChild na.children ['b'] = some nb ∧
        na.children.countP (fun pr => pr.1 = ['b']) = 1 ∧
        nb.nodeLevel = some LogLevel.WARN := by
  have hset : ∀ s : NamespaceNode,
      setLogLevel s (.str ['a', ':', 'b']) LogLevel.WARN =
        if ((findNearestNode s [['a'], ['b']]).1).isEmpty then
          .error "No namespaces found invalid tree."
        else applyAtNearest s [['a'], ['b']] (fun n rem =>
          if rem.isEmpty then .ok (setSlot n false LogLevel.WARN)
          else addRemaining n rem false LogLevel.WARN) := fun s => rfl
  obtain ⟨st, cht, nlt, clt⟩ := t
  have hnodup : (cht.map Prod.fst).Nodup := wf_children_nodup _ hwf
  cases hA : getChild cht ['a'] with
  | none =>
    refine ⟨.mk st (setChild cht ['a'] (.mk ['a']
        [(['b'], .mk ['b'] [] (some LogLevel.WARN) none)] none none)) nlt clt,
      .mk st (setChild (setChild cht ['a'] (.mk ['a']
        [(['b'], .mk ['b'] [] (some LogLevel.WARN) none)] none none)) ['a']
        (.mk ['a'] [(['b'], .mk ['b'] [] (some LogLevel.WARN) none)] none none))
        nlt clt,
      ?_, ?_, ?_⟩
    · rw [hset]
      simp [applyAtNearest, addRemaining, hA, getChild, setChild, setSlot, setChildOf,
        NamespaceNode.withChildren, NamespaceNode.children]
    · rw [hset]
      simp [applyAtNearest, addRemaining, getChild, setSlot, setChildOf, setChild,
        NamespaceNode.withChildren, NamespaceNode.children]
    · refine ⟨_, _, getChild_setChild_self _ _ _, ?_, rfl, by decide, rfl⟩
      exact countP_setChild _ ['a'] _ (setChild_keys_nodup cht ['a'] _ hnodup)
  | some ca =>
    have hcawf : WF ca :=
      wf_children_mem _ hwf ['a'] ca (getChild_mem cht ['a'] ca hA)
    obtain ⟨sa, cha, nla, cla⟩ := ca
    have hcanodup : (cha.map Prod.fst).Nodup := wf_children_nodup _ hcawf
    cases hB : getChild cha ['b'] with
    | none =>
      refine ⟨.mk st (setChild cht ['a'] (.mk sa
          (setChild cha ['b'] (.mk ['b'] [] (some LogLevel.WARN) none)) nla cla))
          nlt clt,
        .mk st (setChild (setChild cht ['a'] (.mk sa
          (setChild cha ['b'] (.mk ['b'] [] (some LogLevel.WARN) none)) nla cla))
          ['a'] (.mk sa (setChild (setChild cha ['b']
            (.mk ['b'] [] (some LogLevel.WARN) none)) ['b']
            (.mk ['b'] [] (some LogLevel.WARN) none)) nla cla)) nlt clt,
        ?_, ?_, ?_⟩
      · rw [hset]
        simp [applyAtNearest, addRemaining, hA, hB, getChild, setChild, setSlot,
          setChildOf, NamespaceNode.withChildren, NamespaceNode.children]
      · rw [hset]
        simp [applyAtNearest, addRemaining, getChild, setChild, setSlot, setChildOf,
          NamespaceNode.withChildren, NamespaceNode.children]
      · refine ⟨_, _, getChild_setChild_self _ _ _, ?_,
          getChild_setChild_self _ _ _, ?_, rfl⟩
        · exact countP_setChild _ ['a'] _ (setChild_keys_nodup cht ['a'] _ hnodup)
        · exact countP_setChild _ ['b'] _
            (setChild_keys_nodup cha ['b'] _ hcanodup)
    | some cb =>
      obtain ⟨sb, chb, nlb, clb⟩ := cb
      refine ⟨.mk st (setChild cht ['a'] (.mk sa
          (setChild cha ['b'] (.mk sb chb (some LogLevel.WARN) clb)) nla cla))
          nlt clt,
        .mk st (setChild (setChild cht ['a'] (.mk sa
          (setChild cha ['b'] (.mk sb chb (some LogLevel.WARN) clb)) nla cla))
          ['a'] (.mk sa (setChild (setChild cha ['b']
            (.mk sb chb (some LogLevel.WARN) clb)) ['b']
            (.mk sb chb (some LogLevel.WARN) clb)) nla cla)) nlt clt,
        ?_, ?_, ?_⟩
      · rw [hset]
        simp [applyAtNearest, addRemaining, hA, hB, getChild, setChild, setSlot,
          setChildOf, NamespaceNode.withChildren, NamespaceNode.children]
      · rw [hset]
        simp [applyAtNearest, addRemaining, getChild, setChild, setSlot, setChildOf,
          NamespaceNode.withChildren, NamespaceNode.children]
      · refine ⟨_, _, getChild_setChild_self _ _ _, ?_,
          getChild_setChild_self _ _ _, ?_, rfl⟩
        · exact countP_setChild _ ['a'] _ (setChild_keys_nodup cht ['a'] _ hnodup)
        · exact countP_setChild _ ['b'] _
            (setChild_keys_nodup cha ['b'] _ hcanodup)

theorem claim_C8_witness :
    ∃ t1 t2,
      setLogLevel createRootNode (.str ['a', ':', 'b']) LogLevel.WARN = .ok t1 ∧
      setLogLevel t1 (.str ['a', ':', 'b']) LogLevel.WARN = .ok t2 ∧
      ∃ na nb,
        getChild t2.children ['a'] = some na ∧
        t2.children.countP (fun pr => pr.1 = ['a']) = 1 ∧
        getChild na.children ['b'] = some nb ∧
        na.children.countP (fun pr => pr.1 = ['b']) = 1 ∧
        nb.nodeLevel = some LogLevel.WARN :=
  claim_C8_repeated_set_idempotent createRootNode
    (WF.mk ROOT_NAMESPACE_KEY [] none (some DEFAULT_ROOT_LEVEL)
      (by simp) (by simp))
